import Mathlib

/-
Verification development for the LabZen numeric core
(calculators/molarity.py, calculators/assembly.py, calculators/protein_conc.py).

Python floats are modelled by rationals (ℚ); Python exceptions are modelled
by an explicit error type carried in `Except`.  `ValueError` (the spec calls
its occurrences InvalidArgument / InvalidConfiguration / ParseError /
InsufficientData depending on the raising function) is `PyError.valueError`
with the message text; Python's `ZeroDivisionError` on float division by
zero is `PyError.zeroDivisionError`.
-/

namespace LabZen

/-- Python exception model: `ValueError msg` or `ZeroDivisionError`. -/
inductive PyError where
  | valueError (msg : String)
  | zeroDivisionError
deriving Repr, DecidableEq

/-- Python float division: raises `ZeroDivisionError` when the divisor is zero. -/
def pydiv (a b : ℚ) : Except PyError ℚ :=
  if b = 0 then .error .zeroDivisionError else .ok (a / b)

/-! ## calculators/molarity.py -/

/-- `calculate_mass` from calculators/molarity.py: `mw * concentration_m * volume_l`. -/
def calculate_mass (molecular_weight concentration_m volume_l : ℚ) : ℚ :=
  molecular_weight * concentration_m * volume_l

/-- `calculate_molarity` from calculators/molarity.py: raises when
`molecular_weight == 0 or volume_l == 0`, else returns `mass_g / (mw * volume_l)`. -/
def calculate_molarity (molecular_weight mass_g volume_l : ℚ) : Except PyError ℚ :=
  if molecular_weight = 0 ∨ volume_l = 0 then
    .error (.valueError "Molecular weight and volume must be greater than 0.")
  else
    .ok (mass_g / (molecular_weight * volume_l))

/-- `calculate_volume` from calculators/molarity.py: raises when
`molecular_weight == 0 or concentration_m == 0`, else returns
`mass_g / (mw * concentration_m)`. -/
def calculate_volume (molecular_weight mass_g concentration_m : ℚ) : Except PyError ℚ :=
  if molecular_weight = 0 ∨ concentration_m = 0 then
    .error (.valueError "Molecular weight and concentration must be greater than 0.")
  else
    .ok (mass_g / (molecular_weight * concentration_m))

/-! ## calculators/assembly.py -/

/-- `Fragment` dataclass from calculators/assembly.py. -/
structure Fragment where
  name : String
  length_bp : ℚ
  concentration_ng_ul : ℚ
  is_vector : Bool
deriving Repr, DecidableEq

/-- The dictionary returned by `compute_assembly_protocol`.  The Python dict
`fragment_volumes` is modelled by an insertion-ordered association list. -/
structure AssemblyResult where
  fragment_volumes : List (String × ℚ)
  master_mix_volume : ℚ
  water_volume : ℚ
  total_reaction_volume : ℚ
deriving Repr, DecidableEq

/-- Python dict assignment `d[k] = v`: update the value of an existing key in
place (keys are unique in every dict this file builds), else append at the end. -/
def dictInsert : List (String × ℚ) → String → ℚ → List (String × ℚ)
  | [], k, v => [(k, v)]
  | p :: rest, k, v => if p.1 == k then (k, v) :: rest else p :: dictInsert rest k v

/-- Mass in ng for the vector: `vector_pmol * 1e-12 * (length_bp * 650) * 1e9`
(line 48 of assembly.py). -/
def vectorMassNg (vector_pmol : ℚ) (vector : Fragment) : ℚ :=
  vector_pmol * (1 / 10 ^ 12) * (vector.length_bp * 650) * 10 ^ 9

/-- Mass in ng for an insert: the target pmol is `insert_molar_excess * vector_pmol`
(lines 66-69 of assembly.py). -/
def insertMassNg (vector_pmol insert_molar_excess : ℚ) (frag : Fragment) : ℚ :=
  (insert_molar_excess * vector_pmol) * (1 / 10 ^ 12) * (frag.length_bp * 650) * 10 ^ 9

/-- The `for frag in fragments` loop of `compute_assembly_protocol`
(lines 62-75 of assembly.py): skip the vector, validate each insert
concentration, and store `mass / concentration` under the fragment name. -/
def insertLoop (vector_pmol insert_molar_excess : ℚ) :
    List Fragment → List (String × ℚ) → Except PyError (List (String × ℚ))
  | [], acc => .ok acc
  | frag :: rest, acc =>
    if frag.is_vector then insertLoop vector_pmol insert_molar_excess rest acc
    else if frag.concentration_ng_ul ≤ 0 then
      .error (.valueError ("Insert concentration must be > 0 ng/uL for " ++ frag.name))
    else
      match pydiv (insertMassNg vector_pmol insert_molar_excess frag) frag.concentration_ng_ul with
      | .error e => .error e
      | .ok insert_volume_ul =>
        insertLoop vector_pmol insert_molar_excess rest (dictInsert acc frag.name insert_volume_ul)

/-- `compute_assembly_protocol` from calculators/assembly.py.  Divisions are
`pydiv` (Python float division, raising `ZeroDivisionError` on a zero divisor);
the two concentration divisions are guarded by the `<= 0` checks of the source,
while `total_reaction_volume / master_mix_concentration` is unguarded. -/
def compute_assembly_protocol (fragments : List Fragment)
    (total_reaction_volume master_mix_concentration vector_pmol insert_molar_excess : ℚ) :
    Except PyError AssemblyResult :=
  match fragments.filter (fun f => f.is_vector) with
  | [vector] =>
    if vector.concentration_ng_ul ≤ 0 then
      .error (.valueError ("Vector concentration must be > 0 ng/uL for " ++ vector.name))
    else
      match pydiv (vectorMassNg vector_pmol vector) vector.concentration_ng_ul with
      | .error e => .error e
      | .ok vector_volume_ul =>
        match insertLoop vector_pmol insert_molar_excess fragments
            [(vector.name, vector_volume_ul)] with
        | .error e => .error e
        | .ok fragment_volumes =>
          match pydiv total_reaction_volume master_mix_concentration with
          | .error e => .error e
          | .ok master_mix_volume =>
            if total_reaction_volume - master_mix_volume -
                (fragment_volumes.map Prod.snd).sum < 0 then
              .error (.valueError
                "Calculated volumes exceed total reaction volume. Try reducing vector pmol or total fragment count.")
            else
              .ok ⟨fragment_volumes, master_mix_volume,
                total_reaction_volume - master_mix_volume -
                  (fragment_volumes.map Prod.snd).sum,
                total_reaction_volume⟩
  | _ => .error (.valueError "Exactly one fragment must be flagged as vector.")

/-- Pipetting volume of the vector in uL: mass over concentration. -/
def vectorVolume (vector_pmol : ℚ) (vector : Fragment) : ℚ :=
  vectorMassNg vector_pmol vector / vector.concentration_ng_ul

/-- Pipetting volume of an insert in uL: mass over concentration. -/
def insertVolume (vector_pmol insert_molar_excess : ℚ) (frag : Fragment) : ℚ :=
  insertMassNg vector_pmol insert_molar_excess frag / frag.concentration_ng_ul

/-- One step of the insert loop, on the side of pure values: skip the vector,
store an insert volume under the fragment name. -/
def volStep (vector_pmol insert_molar_excess : ℚ) (d : List (String × ℚ))
    (f : Fragment) : List (String × ℚ) :=
  if f.is_vector then d
  else dictInsert d f.name (insertVolume vector_pmol insert_molar_excess f)

/-- The fragment-volume dict produced by a successful run: the vector entry
first, then every non-vector fragment inserted in list order. -/
def volumesMap (vector_pmol insert_molar_excess : ℚ) (vector : Fragment)
    (fragments : List Fragment) : List (String × ℚ) :=
  fragments.foldl (volStep vector_pmol insert_molar_excess)
    [(vector.name, vectorVolume vector_pmol vector)]

/-- The water volume a successful run computes:
`total - total / master_mix_concentration - sum of dict values`. -/
def waterPure (fragments : List Fragment)
    (total_reaction_volume master_mix_concentration vector_pmol insert_molar_excess : ℚ) : ℚ :=
  match fragments.filter (fun f => f.is_vector) with
  | [vector] =>
    total_reaction_volume - total_reaction_volume / master_mix_concentration -
      ((volumesMap vector_pmol insert_molar_excess vector fragments).map Prod.snd).sum
  | _ => 0

/-- Lookup in the association-list model of a Python dict. -/
def lookupDict : List (String × ℚ) → String → Option ℚ
  | [], _ => none
  | p :: rest, k => if p.1 == k then some p.2 else lookupDict rest k

/-- The volume the planner computes for a fragment: the vector is dosed by
`vector_pmol`, an insert by `insert_molar_excess * vector_pmol`. -/
def fragVol (vector_pmol insert_molar_excess : ℚ) (f : Fragment) : ℚ :=
  if f.is_vector then vectorVolume vector_pmol f
  else insertVolume vector_pmol insert_molar_excess f

/-- Building a dict from a pair list by repeated Python-dict assignment. -/
def dictOf (pairs : List (String × ℚ)) : List (String × ℚ) :=
  pairs.foldl (fun d p => dictInsert d p.1 p.2) []

/-- The value of the last pair carrying key `k`, if any. -/
def findLastVal (pairs : List (String × ℚ)) (k : String) : Option ℚ :=
  (pairs.reverse.find? (fun p => p.1 == k)).map Prod.snd

/-! ## calculators/protein_conc.py -/

/-- Drop leading whitespace characters. -/
def dropWhileWs : List Char → List Char
  | [] => []
  | c :: cs => if c.isWhitespace then dropWhileWs cs else c :: cs

/-- Python `str.strip()`: remove leading and trailing whitespace. -/
def pyStrip (s : String) : List Char :=
  (dropWhileWs (dropWhileWs s.data).reverse).reverse

/-- Split a character list into newline-separated lines. -/
def splitLinesAux : List Char → List Char → List String
  | [], cur => [String.mk cur.reverse]
  | c :: cs, cur =>
    if c == '\n' then String.mk cur.reverse :: splitLinesAux cs []
    else splitLinesAux cs (c :: cur)

/-- Python `raw_text.strip().splitlines()` with newline-separated input
(an empty stripped text yields no lines). -/
def pyLines (raw_text : String) : List String :=
  if (pyStrip raw_text).isEmpty then [] else splitLinesAux (pyStrip raw_text) []

/-- Worker for `pySplit`, accumulating the current token reversed. -/
def splitWsAux : List Char → List Char → List String
  | [], cur => if cur.isEmpty then [] else [String.mk cur.reverse]
  | c :: cs, cur =>
    if c.isWhitespace then
      if cur.isEmpty then splitWsAux cs []
      else String.mk cur.reverse :: splitWsAux cs []
    else splitWsAux cs (c :: cur)

/-- Python `line.split()`: split on whitespace runs, dropping empty tokens. -/
def pySplit (line : String) : List String := splitWsAux line.data []

/-- Consume leading decimal digits, returning their value, their count, and
the remaining characters. -/
def takeDigits : List Char → Nat → Nat → Nat × Nat × List Char
  | [], acc, cnt => (acc, cnt, [])
  | c :: cs, acc, cnt =>
    if c.isDigit then takeDigits cs (10 * acc + (c.toNat - 48)) (cnt + 1)
    else (acc, cnt, c :: cs)

/-- Syntactic shape of a parsed float token: sign, integer part, fraction
digits with their count, and exponent. -/
structure FloatRep where
  neg : Bool
  ip : Nat
  fp : Nat
  fc : Nat
  ex : Int
deriving Repr, DecidableEq

/-- Parse an unsigned decimal mantissa (`12`, `12.`, `.5`, `12.5`),
returning integer part, fraction digits and count, and the rest. -/
def parseMantissaRep (cs : List Char) : Option ((Nat × Nat × Nat) × List Char) :=
  match takeDigits cs 0 0 with
  | (ip, ic, r1) =>
    match r1 with
    | '.' :: r2 =>
      match takeDigits r2 0 0 with
      | (fp, fc, r3) =>
        if ic == 0 && fc == 0 then none
        else some ((ip, fp, fc), r3)
    | _ => if ic == 0 then none else some ((ip, 0, 0), r1)

/-- Parse an optionally signed exponent that must consume the whole rest. -/
def parseExpDigits (cs : List Char) : Option Int :=
  match cs with
  | '+' :: r =>
    match takeDigits r 0 0 with
    | (e, ec, rest) => if ec == 0 || !rest.isEmpty then none else some (e : Int)
  | '-' :: r =>
    match takeDigits r 0 0 with
    | (e, ec, rest) => if ec == 0 || !rest.isEmpty then none else some (-(e : Int))
  | r =>
    match takeDigits r 0 0 with
    | (e, ec, rest) => if ec == 0 || !rest.isEmpty then none else some (e : Int)

/-- The syntactic float parser: optional sign, mantissa, optional `e`/`E`
exponent consuming the whole token. -/
def pyFloatRep (s : String) : Option FloatRep :=
  match (match s.data with
    | '+' :: r => (false, r)
    | '-' :: r => (true, r)
    | r => (false, r)) with
  | (neg, cs1) =>
    match parseMantissaRep cs1 with
    | none => none
    | some (m, rest) =>
      match rest with
      | [] => some ⟨neg, m.1, m.2.1, m.2.2, 0⟩
      | 'e' :: r =>
        match parseExpDigits r with
        | some ex => some ⟨neg, m.1, m.2.1, m.2.2, ex⟩
        | none => none
      | 'E' :: r =>
        match parseExpDigits r with
        | some ex => some ⟨neg, m.1, m.2.1, m.2.2, ex⟩
        | none => none
      | _ => none

/-- Numeric value of a parsed float token. -/
def repVal (r : FloatRep) : ℚ :=
  (if r.neg then (-1 : ℚ) else 1) *
    ((r.ip : ℚ) + (r.fp : ℚ) / (10 : ℚ) ^ r.fc) * (10 : ℚ) ^ r.ex

/-- Python `float(token)` on ordinary decimal and scientific notation
(optional sign, digits with optional fraction, optional `e`/`E` exponent);
`inf`, `nan` and underscore separators are not modelled.  `none` models the
`ValueError` raised on a non-numeric token. -/
def pyFloat (s : String) : Option ℚ := (pyFloatRep s).map repVal

/-- The fixed concentration ladder for wells A1..A9 (mg/mL),
lines 9-19 of protein_conc.py. -/
def STANDARD_CONCENTRATIONS : List ℚ :=
  [2.0, 1.5, 1.0, 0.75, 0.5, 0.25, 0.125, 0.025, 0.0]

/-- One row of the parsed standard DataFrame:
`[conc_mg_mL, abs_rep1, abs_rep2, abs_mean]`. -/
structure StandardPoint where
  conc_mg_mL : ℚ
  abs_rep1 : ℚ
  abs_rep2 : ℚ
  abs_mean : ℚ
deriving Repr, DecidableEq

/-- The row loop of `parse_standard_duplicates` (lines 45-57 of
protein_conc.py): each line must split into at least two tokens, both numeric;
the row is zipped with the concentration ladder positionally and the mean of
the two replicates is recorded. -/
def parseRows : Nat → List String → List ℚ → Except PyError (List StandardPoint)
  | _, _, [] => .ok []
  | _, [], _ :: _ => .ok []
  | i, line :: ls, conc :: cs =>
    match pySplit line with
    | p0 :: p1 :: _ =>
      match pyFloat p0 with
      | none => .error (.valueError ("could not convert string to float: " ++ p0))
      | some rep1 =>
        match pyFloat p1 with
        | none => .error (.valueError ("could not convert string to float: " ++ p1))
        | some rep2 =>
          match parseRows (i + 1) ls cs with
          | .error e => .error e
          | .ok pts => .ok (⟨conc, rep1, rep2, (rep1 + rep2) / 2⟩ :: pts)
    | _ =>
      .error (.valueError
        ("Line " ++ toString (i + 1) ++ " does not have 2 columns of absorbance."))

/-- `parse_standard_duplicates` from calculators/protein_conc.py: at least 9
lines are required; the first 9 are parsed against the fixed ladder. -/
def parse_standard_duplicates (raw_text : String) : Except PyError (List StandardPoint) :=
  if (pyLines raw_text).length < 9 then
    .error (.valueError
      "You must provide at least 9 lines of data for the 9 standard concentrations (A1-A9).")
  else
    parseRows 0 ((pyLines raw_text).take 9) STANDARD_CONCENTRATIONS

/-- A line is well-formed when it has at least two tokens and the first two
are numeric. -/
def rowOk (line : String) : Bool :=
  match pySplit line with
  | p0 :: p1 :: _ => (pyFloat p0).isSome && (pyFloat p1).isSome
  | _ => false

/-- The row a well-formed line parses to, bound to concentration `conc`. -/
def rowPoint (conc : ℚ) (line : String) : StandardPoint :=
  match pySplit line with
  | p0 :: p1 :: _ =>
    ⟨conc, (pyFloat p0).getD 0, (pyFloat p1).getD 0,
      ((pyFloat p0).getD 0 + (pyFloat p1).getD 0) / 2⟩
  | _ => ⟨conc, 0, 0, 0⟩

/-- The closed-form ordinary-least-squares slope modelling
`np.polyfit(x, y, 1)[0]` on the curve's `(conc, abs_mean)` points. -/
def olsSlope (pts : List StandardPoint) : ℚ :=
  ((pts.length : ℚ) * (pts.map (fun p => p.conc_mg_mL * p.abs_mean)).sum -
      (pts.map (fun p => p.conc_mg_mL)).sum * (pts.map (fun p => p.abs_mean)).sum) /
    ((pts.length : ℚ) * (pts.map (fun p => p.conc_mg_mL ^ 2)).sum -
      ((pts.map (fun p => p.conc_mg_mL)).sum) ^ 2)

/-- The closed-form ordinary-least-squares intercept modelling
`np.polyfit(x, y, 1)[1]`. -/
def olsIntercept (pts : List StandardPoint) : ℚ :=
  ((pts.map (fun p => p.abs_mean)).sum -
      olsSlope pts * (pts.map (fun p => p.conc_mg_mL)).sum) /
    (pts.length : ℚ)

/-- `compute_standard_regression` from calculators/protein_conc.py: fewer than
2 points raise; otherwise the degree-1 least-squares fit (`np.polyfit`) is
returned as `(slope, intercept)`. -/
def compute_standard_regression (standard_df : List StandardPoint) :
    Except PyError (ℚ × ℚ) :=
  if standard_df.length < 2 then
    .error (.valueError "Need at least 2 points for regression.")
  else
    .ok (olsSlope standard_df, olsIntercept standard_df)

/-- The residual sum of squares of a candidate line over a curve. -/
def rss (pts : List StandardPoint) (slope intercept : ℚ) : ℚ :=
  (pts.map (fun p => (p.abs_mean - (slope * p.conc_mg_mL + intercept)) ^ 2)).sum

/-- `compute_sample_concentration` from calculators/protein_conc.py:
`(abs_val - intercept) / slope`, clamped at 0, scaled by the dilution factor.
The division is unguarded in the source. -/
def compute_sample_concentration (abs_val slope intercept dilution_factor : ℚ) :
    Except PyError ℚ :=
  match pydiv (abs_val - intercept) slope with
  | .error e => .error e
  | .ok calc_conc =>
    .ok ((if calc_conc < 0 then 0 else calc_conc) * dilution_factor)

/-- `compute_total_yield` from calculators/protein_conc.py. -/
def compute_total_yield (concentration_mg_mL total_volume_uL : ℚ) : ℚ :=
  concentration_mg_mL * (total_volume_uL / 1000)

/-- C2: for positive `mw, M, V` the round-trips
`calculate_molarity mw (calculate_mass mw M V) V = M` and
`calculate_volume mw (calculate_mass mw M V) M = V` hold (exactly, over ℚ). -/
theorem molarity_round_trip (mw M V : ℚ) (hmw : 0 < mw) (hM : 0 < M) (hV : 0 < V) :
    calculate_molarity mw (calculate_mass mw M V) V = .ok M ∧
    calculate_volume mw (calculate_mass mw M V) M = .ok V := by
  have hmw0 : mw ≠ 0 := ne_of_gt hmw
  have hM0 : M ≠ 0 := ne_of_gt hM
  have hV0 : V ≠ 0 := ne_of_gt hV
  have h1 : calculate_mass mw M V / (mw * V) = M := by
    unfold calculate_mass
    rw [div_eq_iff (by positivity)]
    ring
  have h2 : calculate_mass mw M V / (mw * M) = V := by
    unfold calculate_mass
    rw [div_eq_iff (by positivity)]
    ring
  constructor
  · unfold calculate_molarity
    rw [if_neg (by push_neg; exact ⟨hmw0, hV0⟩), h1]
  · unfold calculate_volume
    rw [if_neg (by push_neg; exact ⟨hmw0, hM0⟩), h2]

/-- Witness for C2 at `mw = 2, M = 3, V = 5`. -/
theorem molarity_round_trip_witness :
    calculate_molarity 2 (calculate_mass 2 3 5) 5 = .ok 3 ∧
    calculate_volume 2 (calculate_mass 2 3 5) 3 = .ok 5 :=
  molarity_round_trip 2 3 5 (by norm_num) (by norm_num) (by norm_num)

/-- C8 counterexample: a negative (hence non-positive) molecular weight does not
raise in `calculate_molarity` / `calculate_volume`; both return the quotient. -/
theorem molarity_negative_mw_no_raise :
    calculate_molarity (-1) 1 1 = .ok (-1) ∧
    calculate_volume (-1) 1 1 = .ok (-1) ∧
    (-1 : ℚ) ≤ 0 := by
  refine ⟨?_, ?_, by norm_num⟩
  · norm_num [calculate_molarity]
  · norm_num [calculate_volume]

/-- C8 (amended): `calculate_molarity mw m v` raises exactly when `mw = 0` or
`v = 0`, and `calculate_volume mw m c` raises exactly when `mw = 0` or `c = 0`;
a negative molecular weight is accepted. -/
theorem molarity_error_iff (mw m v : ℚ) :
    ((∃ e, calculate_molarity mw m v = .error e) ↔ mw = 0 ∨ v = 0) ∧
    ((∃ e, calculate_volume mw m v = .error e) ↔ mw = 0 ∨ v = 0) := by
  constructor
  · unfold calculate_molarity
    by_cases h : mw = 0 ∨ v = 0 <;> simp [h]
  · unfold calculate_volume
    by_cases h : mw = 0 ∨ v = 0 <;> simp [h]

/-- C1: every successful `compute_assembly_protocol` result satisfies
`sum (fragment_volumes) + master_mix_volume + water_volume = total_reaction_volume`
(exactly, over ℚ) together with `water_volume >= 0`, and records the requested
total reaction volume. -/
theorem assembly_result_invariant (fragments : List Fragment)
    (total mmc vp ex : ℚ) (r : AssemblyResult)
    (h : compute_assembly_protocol fragments total mmc vp ex = .ok r) :
    (r.fragment_volumes.map Prod.snd).sum + r.master_mix_volume + r.water_volume =
        r.total_reaction_volume ∧
    0 ≤ r.water_volume ∧ r.total_reaction_volume = total := by
  unfold compute_assembly_protocol at h
  split at h
  · split at h
    · exact absurd h (by simp)
    · split at h
      · exact absurd h (by simp)
      · split at h
        · exact absurd h (by simp)
        · split at h
          · exact absurd h (by simp)
          · split at h
            · exact absurd h (by simp)
            · rename_i hwater
              rw [Except.ok.injEq] at h
              subst h
              refine ⟨?_, ?_, rfl⟩
              · show _ + _ + (total - _ - _) = total
                ring
              · show (0:ℚ) ≤ total - _ - _
                linarith [not_lt.mp hwater]
  · exact absurd h (by simp)

/-- If every non-vector fragment of `fs` has positive concentration, the insert
loop succeeds and folds `volStep` over `fs`. -/
theorem insertLoop_ok (vp ex : ℚ) (fs : List Fragment) :
    ∀ acc, (∀ f ∈ fs, f.is_vector = true ∨ 0 < f.concentration_ng_ul) →
      insertLoop vp ex fs acc = .ok (fs.foldl (volStep vp ex) acc) := by
  induction fs with
  | nil => intro acc _; rfl
  | cons g rest ih =>
    intro acc h
    have hg := h g (List.mem_cons_self g rest)
    have hrest : ∀ f ∈ rest, f.is_vector = true ∨ 0 < f.concentration_ng_ul :=
      fun f hf => h f (List.mem_cons_of_mem g hf)
    by_cases hv : g.is_vector
    · rw [insertLoop, if_pos hv, List.foldl_cons, volStep, if_pos hv]
      exact ih acc hrest
    · have hc : 0 < g.concentration_ng_ul := by
        rcases hg with h1 | h1
        · exact absurd h1 hv
        · exact h1
      rw [insertLoop, if_neg hv, if_neg (not_le.mpr hc)]
      rw [show pydiv (insertMassNg vp ex g) g.concentration_ng_ul =
            .ok (insertVolume vp ex g) from by
          rw [pydiv, if_neg (ne_of_gt hc)]; rfl]
      rw [List.foldl_cons, volStep, if_neg hv]
      exact ih _ hrest

/-- If some non-vector fragment of `fs` has non-positive concentration, the
insert loop raises a `ValueError`. -/
theorem insertLoop_err (vp ex : ℚ) (fs : List Fragment) :
    ∀ acc, (∃ f ∈ fs, f.is_vector = false ∧ f.concentration_ng_ul ≤ 0) →
      ∃ msg, insertLoop vp ex fs acc = .error (.valueError msg) := by
  induction fs with
  | nil =>
    rintro acc ⟨f, hf, -⟩
    exact absurd hf (List.not_mem_nil f)
  | cons g rest ih =>
    rintro acc ⟨f, hf, hfv, hfc⟩
    rcases List.mem_cons.mp hf with rfl | hmem
    · have hv : ¬f.is_vector := by rw [hfv]; exact Bool.false_ne_true
      refine ⟨"Insert concentration must be > 0 ng/uL for " ++ f.name, ?_⟩
      rw [insertLoop, if_neg hv, if_pos hfc]
    · by_cases hv : g.is_vector
      · obtain ⟨msg, hm⟩ := ih acc ⟨f, hmem, hfv, hfc⟩
        exact ⟨msg, by rw [insertLoop, if_pos hv, hm]⟩
      · by_cases hc : g.concentration_ng_ul ≤ 0
        · exact ⟨_, by rw [insertLoop, if_neg hv, if_pos hc]⟩
        · obtain ⟨msg, hm⟩ :=
            ih (dictInsert acc g.name (insertVolume vp ex g)) ⟨f, hmem, hfv, hfc⟩
          refine ⟨msg, ?_⟩
          rw [insertLoop, if_neg hv, if_neg hc]
          rw [show pydiv (insertMassNg vp ex g) g.concentration_ng_ul =
                .ok (insertVolume vp ex g) from by
              rw [pydiv, if_neg (ne_of_gt (not_le.mp hc))]; rfl]
          exact hm

/-- With a unique vector and all concentrations positive,
`compute_assembly_protocol` reduces to the master-mix division followed by the
water feasibility check over the pure `volumesMap`. -/
theorem compute_assembly_reduces (fragments : List Fragment) (vector : Fragment)
    (total mmc vp ex : ℚ)
    (hfil : fragments.filter (fun f => f.is_vector) = [vector])
    (hpos : ∀ f ∈ fragments, 0 < f.concentration_ng_ul) :
    compute_assembly_protocol fragments total mmc vp ex =
      match pydiv total mmc with
      | .error e => .error e
      | .ok master_mix_volume =>
        if total - master_mix_volume -
            ((volumesMap vp ex vector fragments).map Prod.snd).sum < 0 then
          .error (.valueError
            "Calculated volumes exceed total reaction volume. Try reducing vector pmol or total fragment count.")
        else
          .ok ⟨volumesMap vp ex vector fragments, master_mix_volume,
            total - master_mix_volume -
              ((volumesMap vp ex vector fragments).map Prod.snd).sum,
            total⟩ := by
  have hvec_mem : vector ∈ fragments := by
    have hmem : vector ∈ fragments.filter (fun f => f.is_vector) := by
      rw [hfil]; exact List.mem_cons_self _ _
    exact (List.mem_filter.mp hmem).1
  have hvc : 0 < vector.concentration_ng_ul := hpos _ hvec_mem
  have hpy : pydiv (vectorMassNg vp vector) vector.concentration_ng_ul =
      .ok (vectorVolume vp vector) := by
    rw [pydiv, if_neg (ne_of_gt hvc)]; rfl
  have hloop := insertLoop_ok vp ex fragments
    [(vector.name, vectorVolume vp vector)] (fun f hf => Or.inr (hpos f hf))
  unfold compute_assembly_protocol
  simp only [hfil, if_neg (not_le.mpr hvc), hpy, hloop]
  rfl

/-- When the number of fragments flagged as vector differs from one, the
assembly planner raises the vector-count `ValueError`. -/
theorem compute_no_vector_err (fragments : List Fragment) (total mmc vp ex : ℚ)
    (h : (fragments.filter (fun f => f.is_vector)).length ≠ 1) :
    compute_assembly_protocol fragments total mmc vp ex =
      .error (.valueError "Exactly one fragment must be flagged as vector.") := by
  unfold compute_assembly_protocol
  cases hfil : fragments.filter (fun f => f.is_vector) with
  | nil => rfl
  | cons a t =>
    cases t with
    | nil => exact absurd (by rw [hfil]; rfl) h
    | cons b t2 => rfl

/-- With a unique vector but some fragment of non-positive concentration, the
assembly planner raises a concentration `ValueError`. -/
theorem compute_conc_err (fragments : List Fragment) (vector : Fragment)
    (total mmc vp ex : ℚ)
    (hfil : fragments.filter (fun f => f.is_vector) = [vector])
    (hbad : ∃ f ∈ fragments, f.concentration_ng_ul ≤ 0) :
    ∃ msg, compute_assembly_protocol fragments total mmc vp ex =
      .error (.valueError msg) := by
  by_cases hvc : vector.concentration_ng_ul ≤ 0
  · refine ⟨"Vector concentration must be > 0 ng/uL for " ++ vector.name, ?_⟩
    unfold compute_assembly_protocol
    simp only [hfil, if_pos hvc]
  · obtain ⟨f, hf, hfc⟩ := hbad
    have hfv : f.is_vector = false := by
      by_contra hcontr
      have hft : f.is_vector = true := by
        cases hx : f.is_vector
        · exact absurd hx hcontr
        · rfl
      have hmemf : f ∈ fragments.filter (fun f => f.is_vector) :=
        List.mem_filter.mpr ⟨hf, by rw [hft]⟩
      rw [hfil, List.mem_singleton] at hmemf
      rw [hmemf] at hfc
      exact hvc hfc
    have hpy : pydiv (vectorMassNg vp vector) vector.concentration_ng_ul =
        .ok (vectorVolume vp vector) := by
      rw [pydiv, if_neg (ne_of_gt (not_le.mp hvc))]; rfl
    obtain ⟨msg, hm⟩ :=
      insertLoop_err vp ex fragments [(vector.name, vectorVolume vp vector)]
        ⟨f, hf, hfv, hfc⟩
    refine ⟨msg, ?_⟩
    unfold compute_assembly_protocol
    simp only [hfil, if_neg hvc, hpy, hm]

/-- C10: with exactly one vector and all fragment concentrations positive,
`master_mix_concentration = 0` makes the unguarded division
`total_reaction_volume / master_mix_concentration` raise `ZeroDivisionError`
(not the `ValueError` the planner uses for `InvalidConfiguration`). -/
theorem assembly_zero_master_mix (fragments : List Fragment) (vector : Fragment)
    (total vp ex : ℚ)
    (hfil : fragments.filter (fun f => f.is_vector) = [vector])
    (hpos : ∀ f ∈ fragments, 0 < f.concentration_ng_ul) :
    compute_assembly_protocol fragments total 0 vp ex =
      .error PyError.zeroDivisionError := by
  rw [compute_assembly_reduces fragments vector total 0 vp ex hfil hpos]
  norm_num [pydiv]

/-- Witness for C10 on a one-vector input with positive concentration. -/
theorem assembly_zero_master_mix_witness :
    compute_assembly_protocol [⟨"V", 1000, 50, true⟩] 20 0 (1/20) 2 =
      .error PyError.zeroDivisionError := by
  refine assembly_zero_master_mix [⟨"V", 1000, 50, true⟩] ⟨"V", 1000, 50, true⟩
    20 (1/20) 2 (by simp [List.filter]) ?_
  intro f hf
  rw [List.mem_singleton] at hf
  rw [hf]
  norm_num

/-- C3 counterexample: an input outside the claimed `InvalidConfiguration`
conditions (one vector, positive concentration) with
`master_mix_concentration = 0` neither raises the planner's `ValueError` nor
returns a result: it raises `ZeroDivisionError`. -/
theorem assembly_not_total_counterexample :
    compute_assembly_protocol [⟨"W", 2000, 25, true⟩] 10 0 (1/10) 2 =
      .error PyError.zeroDivisionError ∧
    (∀ msg, PyError.zeroDivisionError ≠ PyError.valueError msg) ∧
    (∀ r : AssemblyResult,
      compute_assembly_protocol [⟨"W", 2000, 25, true⟩] 10 0 (1/10) 2 ≠ .ok r) := by
  have h : compute_assembly_protocol [⟨"W", 2000, 25, true⟩] 10 0 (1/10) 2 =
      .error PyError.zeroDivisionError := by
    norm_num [compute_assembly_protocol, insertLoop, pydiv, vectorMassNg, List.filter]
  refine ⟨h, ?_, ?_⟩
  · intro msg hmsg
    cases hmsg
  · intro r hr
    rw [h] at hr
    cases hr

/-- C3 (amended): given `master_mix_concentration ≠ 0`, the planner raises a
`ValueError` (`InvalidConfiguration`) exactly when the vector count differs
from one, or some fragment concentration is non-positive, or the computed
water volume is negative, and it returns a result exactly otherwise.  (With
`master_mix_concentration = 0` outside those conditions it instead raises
`ZeroDivisionError`.) -/
theorem assembly_error_characterisation (fragments : List Fragment)
    (total mmc vp ex : ℚ) (hmmc : mmc ≠ 0) :
    ((∃ msg, compute_assembly_protocol fragments total mmc vp ex =
        .error (.valueError msg)) ↔
      ((fragments.filter (fun f => f.is_vector)).length ≠ 1 ∨
        (∃ f ∈ fragments, f.concentration_ng_ul ≤ 0) ∨
        waterPure fragments total mmc vp ex < 0)) ∧
    ((∃ r, compute_assembly_protocol fragments total mmc vp ex = .ok r) ↔
      ¬((fragments.filter (fun f => f.is_vector)).length ≠ 1 ∨
        (∃ f ∈ fragments, f.concentration_ng_ul ≤ 0) ∨
        waterPure fragments total mmc vp ex < 0)) := by
  by_cases h1 : (fragments.filter (fun f => f.is_vector)).length = 1
  · obtain ⟨vector, hfil⟩ := List.length_eq_one.mp h1
    by_cases h2 : ∃ f ∈ fragments, f.concentration_ng_ul ≤ 0
    · obtain ⟨msg, hcomp⟩ := compute_conc_err fragments vector total mmc vp ex hfil h2
      constructor
      · exact ⟨fun _ => Or.inr (Or.inl h2), fun _ => ⟨msg, hcomp⟩⟩
      · constructor
        · rintro ⟨r, hr⟩
          rw [hcomp] at hr
          cases hr
        · intro hn
          exact absurd (Or.inr (Or.inl h2)) hn
    · have hpos : ∀ f ∈ fragments, 0 < f.concentration_ng_ul := by
        push_neg at h2
        exact h2
      have hred := compute_assembly_reduces fragments vector total mmc vp ex hfil hpos
      have hpy : pydiv total mmc = .ok (total / mmc) := by
        rw [pydiv, if_neg hmmc]
      rw [hpy] at hred
      simp only at hred
      have hw : waterPure fragments total mmc vp ex =
          total - total / mmc -
            ((volumesMap vp ex vector fragments).map Prod.snd).sum := by
        unfold waterPure
        simp only [hfil]
      by_cases h3 : waterPure fragments total mmc vp ex < 0
      · rw [if_pos (by rw [← hw]; exact h3)] at hred
        constructor
        · exact ⟨fun _ => Or.inr (Or.inr h3), fun _ => ⟨_, hred⟩⟩
        · constructor
          · rintro ⟨r, hr⟩
            rw [hred] at hr
            cases hr
          · intro hn
            exact absurd (Or.inr (Or.inr h3)) hn
      · rw [if_neg (by rw [← hw]; exact h3)] at hred
        constructor
        · constructor
          · rintro ⟨msg, hmsg⟩
            rw [hred] at hmsg
            cases hmsg
          · rintro (hc | hc | hc)
            · exact absurd h1 hc
            · exact absurd hc h2
            · exact absurd hc h3
        · constructor
          · rintro - (hc | hc | hc)
            · exact absurd h1 hc
            · exact absurd hc h2
            · exact absurd hc h3
          · intro _
            exact ⟨_, hred⟩
  · have hcomp := compute_no_vector_err fragments total mmc vp ex h1
    constructor
    · exact ⟨fun _ => Or.inl h1, fun _ => ⟨_, hcomp⟩⟩
    · constructor
      · rintro ⟨r, hr⟩
        rw [hcomp] at hr
        cases hr
      · intro hn
        exact absurd (Or.inl h1) hn

/-- Witness for C3 at a well-formed one-vector input with `mmc = 2`. -/
theorem assembly_error_characterisation_witness :
    ∃ r, compute_assembly_protocol [⟨"V", 1000, 50, true⟩] 20 2 (1/20) 2 = .ok r := by
  apply (assembly_error_characterisation [⟨"V", 1000, 50, true⟩] 20 2 (1/20) 2
    (by norm_num)).2.mpr
  push_neg
  refine ⟨by simp [List.filter], ?_, ?_⟩
  · intro f hf
    rw [List.mem_singleton] at hf
    subst hf
    norm_num
  · norm_num [waterPure, volumesMap, volStep, vectorVolume, vectorMassNg,
      dictInsert, List.filter]

/-- Evaluation of the worked example of the spec (shared helper):
fragments `V` (3000 bp, 50 ng/uL, vector) and `I` (500 bp, 20 ng/uL),
`total = 10`, `mmc = 2`, `vector_pmol = 0.02`, `insert_molar_excess = 2`. -/
theorem assembly_example_eval :
    compute_assembly_protocol
      [⟨"V", 3000, 50, true⟩, ⟨"I", 500, 20, false⟩] 10 2 (1/50) 2 =
      .ok ⟨[("V", 39/50), ("I", 13/20)], 5, 357/100, 10⟩ := by
  norm_num [compute_assembly_protocol, insertLoop, dictInsert, pydiv,
    vectorMassNg, insertMassNg, List.filter]
  simp
  all_goals norm_num

/-- C4 counterexample: on the spec's worked example the code returns a vector
volume of `0.78` uL, an insert volume of `0.65` uL and water `3.57` uL, not the
claimed `0.0078` / `0.0065` / `≈ 4.9857` (off by a factor of 100, far beyond
floating tolerance). -/
theorem assembly_example_claim_false :
    compute_assembly_protocol
      [⟨"V", 3000, 50, true⟩, ⟨"I", 500, 20, false⟩] 10 2 (1/50) 2 =
      .ok ⟨[("V", 39/50), ("I", 13/20)], 5, 357/100, 10⟩ ∧
    (39/50 : ℚ) ≠ 78/10000 ∧ (13/20 : ℚ) ≠ 65/10000 ∧
    (357/100 : ℚ) ≠ 49857/10000 :=
  ⟨assembly_example_eval, by norm_num, by norm_num, by norm_num⟩

/-- C4 (amended): on the spec's worked example the planner returns
`master_mix_volume = 5`, vector volume `0.78` uL, insert volume `0.65` uL and
water `3.57` uL, exactly. -/
theorem assembly_example_exact :
    compute_assembly_protocol
      [⟨"V", 3000, 50, true⟩, ⟨"I", 500, 20, false⟩] 10 2 (1/50) 2 =
      .ok ⟨[("V", 39/50), ("I", 13/20)], 5, 357/100, 10⟩ :=
  assembly_example_eval

/-- Witness for C1 at the worked example of the spec. -/
theorem assembly_result_invariant_witness :
    (([("V", (39:ℚ)/50), ("I", 13/20)].map Prod.snd).sum + 5 + 357/100 :ℚ) = 10 ∧
    (0:ℚ) ≤ 357/100 := by
  have h := assembly_result_invariant
    [⟨"V", 3000, 50, true⟩, ⟨"I", 500, 20, false⟩] 10 2 (1/50) 2
    ⟨[("V", 39/50), ("I", 13/20)], 5, 357/100, 10⟩
    (by
      norm_num [compute_assembly_protocol, insertLoop, dictInsert, pydiv,
        vectorMassNg, insertMassNg, List.filter]
      simp
      all_goals norm_num)
  exact ⟨h.1, h.2.1⟩

theorem lookupDict_dictInsert_self (d : List (String × ℚ)) (k : String) (v : ℚ) :
    lookupDict (dictInsert d k v) k = some v := by
  induction d with
  | nil => simp [dictInsert, lookupDict]
  | cons p rest ih =>
    cases hb : p.1 == k with
    | true => simp [dictInsert, hb, lookupDict]
    | false => simp [dictInsert, hb, lookupDict, ih]

theorem lookupDict_dictInsert_ne (d : List (String × ℚ)) (k : String) (v : ℚ)
    (k' : String) (h : k ≠ k') :
    lookupDict (dictInsert d k v) k' = lookupDict d k' := by
  induction d with
  | nil =>
    simp only [dictInsert, lookupDict]
    rw [if_neg (by simpa using h)]
  | cons p rest ih =>
    cases hb : p.1 == k with
    | true =>
      have hp : p.1 = k := eq_of_beq hb
      simp only [dictInsert, hb, if_true, lookupDict]
      rw [if_neg (by simpa using h), if_neg (by rw [hp]; simpa using h)]
    | false =>
      simp only [dictInsert, hb, Bool.false_eq_true, if_false, lookupDict]
      cases hb' : p.1 == k' with
      | true => simp [hb']
      | false => simp [hb', ih]

theorem mem_keys_dictInsert (d : List (String × ℚ)) (k : String) (v : ℚ) (a : String) :
    a ∈ (dictInsert d k v).map Prod.fst ↔ a ∈ d.map Prod.fst ∨ a = k := by
  induction d with
  | nil => simp [dictInsert]
  | cons p rest ih =>
    cases hb : p.1 == k with
    | true =>
      have hp : p.1 = k := eq_of_beq hb
      simp [dictInsert, hb, hp]
      tauto
    | false =>
      simp [dictInsert, hb, ih]
      tauto

theorem nodup_keys_dictInsert (d : List (String × ℚ)) (k : String) (v : ℚ)
    (h : (d.map Prod.fst).Nodup) : ((dictInsert d k v).map Prod.fst).Nodup := by
  induction d with
  | nil => simp [dictInsert]
  | cons p rest ih =>
    rw [List.map_cons, List.nodup_cons] at h
    cases hb : p.1 == k with
    | true =>
      have hp : p.1 = k := eq_of_beq hb
      simp only [dictInsert, hb, if_true, List.map_cons, List.nodup_cons]
      exact ⟨by rw [← hp]; exact h.1, h.2⟩
    | false =>
      simp only [dictInsert, hb, Bool.false_eq_true, if_false, List.map_cons,
        List.nodup_cons]
      refine ⟨?_, ih h.2⟩
      rw [mem_keys_dictInsert]
      rintro (hmem | rfl)
      · exact h.1 hmem
      · simp at hb

theorem nodup_keys_foldl (pairs : List (String × ℚ)) :
    ∀ d, (d.map Prod.fst).Nodup →
      (((pairs.foldl (fun d p => dictInsert d p.1 p.2) d)).map Prod.fst).Nodup := by
  induction pairs with
  | nil => intro d h; exact h
  | cons p ps ih =>
    intro d h
    rw [List.foldl_cons]
    exact ih _ (nodup_keys_dictInsert d p.1 p.2 h)

theorem lookupDict_foldl (pairs : List (String × ℚ)) :
    ∀ (d : List (String × ℚ)) (k : String),
      lookupDict (pairs.foldl (fun d p => dictInsert d p.1 p.2) d) k =
        (findLastVal pairs k).or (lookupDict d k) := by
  induction pairs with
  | nil =>
    intro d k
    simp [findLastVal, Option.or]
  | cons p ps ih =>
    intro d k
    rw [List.foldl_cons, ih]
    cases hf : ps.reverse.find? (fun q => q.1 == k) with
    | some q =>
      have h1 : findLastVal ps k = some q.2 := by simp [findLastVal, hf]
      have h2 : findLastVal (p :: ps) k = some q.2 := by
        simp [findLastVal, List.reverse_cons, List.find?_append, hf]
      rw [h1, h2]
      simp [Option.or]
    | none =>
      have h1 : findLastVal ps k = none := by simp [findLastVal, hf]
      cases hb : p.1 == k with
      | true =>
        have hp : p.1 = k := eq_of_beq hb
        have hself : lookupDict (dictInsert d p.1 p.2) k = some p.2 :=
          hp ▸ lookupDict_dictInsert_self d p.1 p.2
        have h2 : findLastVal (p :: ps) k = some p.2 := by
          simp [findLastVal, List.reverse_cons, List.find?_append, hf, List.find?, hb]
        rw [h1, h2, hself]
        simp [Option.or]
      | false =>
        have hp : p.1 ≠ k := by simpa using hb
        have h2 : findLastVal (p :: ps) k = none := by
          simp [findLastVal, List.reverse_cons, List.find?_append, hf, List.find?, hb]
        rw [h1, h2, lookupDict_dictInsert_ne d p.1 p.2 k hp]

/-- The final dict lookup returns the value of the last assignment to a key. -/
theorem lookupDict_dictOf (pairs : List (String × ℚ)) (k : String) :
    lookupDict (dictOf pairs) k = findLastVal pairs k := by
  rw [dictOf, lookupDict_foldl]
  cases findLastVal pairs k with
  | none => simp [Option.or, lookupDict]
  | some v => simp [Option.or]

theorem foldl_volStep_filter (vp ex : ℚ) (l : List Fragment) :
    ∀ acc, l.foldl (volStep vp ex) acc =
      (l.filter (fun f => !f.is_vector)).foldl
        (fun d f => dictInsert d f.name (insertVolume vp ex f)) acc := by
  induction l with
  | nil => intro acc; rfl
  | cons f rest ih =>
    intro acc
    cases hv : f.is_vector with
    | true =>
      rw [List.foldl_cons, List.filter_cons]
      simp only [volStep, hv, if_true, Bool.not_true, Bool.false_eq_true, if_false]
      exact ih acc
    | false =>
      rw [List.foldl_cons, List.filter_cons]
      simp only [volStep, hv, Bool.false_eq_true, if_false, Bool.not_false, if_true,
        List.foldl_cons]
      exact ih _

theorem foldl_pairs_congr (vp ex : ℚ) (l : List Fragment) :
    ∀ acc, (∀ f ∈ l, f.is_vector = false) →
      l.foldl (fun d f => dictInsert d f.name (insertVolume vp ex f)) acc =
        (l.map (fun f => (f.name, fragVol vp ex f))).foldl
          (fun d p => dictInsert d p.1 p.2) acc := by
  induction l with
  | nil => intro acc _; rfl
  | cons f rest ih =>
    intro acc hl
    have hf : f.is_vector = false := hl f (List.mem_cons_self f rest)
    have hfv : fragVol vp ex f = insertVolume vp ex f := by
      rw [fragVol, hf]
      simp
    rw [List.map_cons, List.foldl_cons, List.foldl_cons]
    show _ = (rest.map (fun f => (f.name, fragVol vp ex f))).foldl
      (fun d p => dictInsert d p.1 p.2) (dictInsert acc f.name (fragVol vp ex f))
    rw [hfv]
    exact ih _ (fun g hg => hl g (List.mem_cons_of_mem f hg))

/-- A successful run's fragment dict is the Python-dict fold over the processing
order: the vector first, then the non-vector fragments in list order. -/
theorem volumesMap_eq_dictOf (vp ex : ℚ) (vector : Fragment)
    (fragments : List Fragment) (hvec : vector.is_vector = true) :
    volumesMap vp ex vector fragments =
      dictOf ((vector :: fragments.filter (fun f => !f.is_vector)).map
        (fun f => (f.name, fragVol vp ex f))) := by
  have h1 : dictInsert [] vector.name (fragVol vp ex vector) =
      [(vector.name, vectorVolume vp vector)] := by
    rw [fragVol, hvec]
    simp [dictInsert]
  rw [volumesMap, dictOf, List.map_cons, List.foldl_cons, h1, foldl_volStep_filter]
  exact foldl_pairs_congr vp ex _ _ (fun f hf => by
    have hm := List.mem_filter.mp hf
    simpa using hm.2)

/-- C9 (amended): with one vector, positive concentrations, a nonzero master-mix
concentration and a nonnegative computed water volume, the planner succeeds; the
returned dict has one entry per name; looking a name up yields the volume of the
last fragment with that name in processing order (vector first, then non-vector
fragments in list order); and the water volume deducts exactly the values present
in the dict (an overwritten duplicate's volume is not deducted). -/
theorem assembly_duplicate_name_semantics (fragments : List Fragment)
    (vector : Fragment) (total mmc vp ex : ℚ)
    (hfil : fragments.filter (fun f => f.is_vector) = [vector])
    (hpos : ∀ f ∈ fragments, 0 < f.concentration_ng_ul)
    (hmmc : mmc ≠ 0)
    (hw : 0 ≤ waterPure fragments total mmc vp ex) :
    ∃ r, compute_assembly_protocol fragments total mmc vp ex = .ok r ∧
      (r.fragment_volumes.map Prod.fst).Nodup ∧
      (∀ k, lookupDict r.fragment_volumes k =
        (((vector :: fragments.filter (fun f => !f.is_vector)).reverse.find?
            (fun f => f.name == k)).map (fragVol vp ex))) ∧
      r.water_volume =
        total - total / mmc - (r.fragment_volumes.map Prod.snd).sum := by
  have hvec : vector.is_vector = true := by
    have hmem : vector ∈ fragments.filter (fun f => f.is_vector) := by
      rw [hfil]
      exact List.mem_cons_self _ _
    exact (List.mem_filter.mp hmem).2
  have hred := compute_assembly_reduces fragments vector total mmc vp ex hfil hpos
  have hpy : pydiv total mmc = .ok (total / mmc) := by
    rw [pydiv, if_neg hmmc]
  rw [hpy] at hred
  simp only at hred
  have hwku : waterPure fragments total mmc vp ex =
      total - total / mmc -
        ((volumesMap vp ex vector fragments).map Prod.snd).sum := by
    unfold waterPure
    simp only [hfil]
  rw [if_neg (not_lt.mpr (by rw [← hwku]; exact hw))] at hred
  refine ⟨_, hred, ?_, ?_, rfl⟩
  · show ((volumesMap vp ex vector fragments).map Prod.fst).Nodup
    rw [volumesMap_eq_dictOf vp ex vector fragments hvec, dictOf]
    exact nodup_keys_foldl _ [] (by simp)
  · intro k
    show lookupDict (volumesMap vp ex vector fragments) k = _
    rw [volumesMap_eq_dictOf vp ex vector fragments hvec, lookupDict_dictOf,
      findLastVal, ← List.map_reverse, List.find?_map, Option.map_map]
    rfl

/-- C9 counterexample: with a non-vector fragment named `A` followed by the
vector also named `A`, the returned dict holds the insert's volume `6.5` uL,
while the last fragment named `A` in list order is the vector, whose computed
volume is `3.25` uL. -/
theorem assembly_duplicate_last_in_list_false :
    compute_assembly_protocol
      [⟨"A", 1000, 10, false⟩, ⟨"A", 1000, 10, true⟩] 20 2 (1/20) 2 =
      .ok ⟨[("A", 13/2)], 10, 7/2, 20⟩ ∧
    fragVol (1/20) 2 ⟨"A", 1000, 10, true⟩ = 13/4 ∧
    ((13:ℚ)/2) ≠ 13/4 := by
  refine ⟨?_, ?_, by norm_num⟩
  · norm_num [compute_assembly_protocol, insertLoop, dictInsert, pydiv,
      vectorMassNg, insertMassNg, List.filter]
  · norm_num [fragVol, vectorVolume, vectorMassNg]

/-- Witness for C9 on the duplicate-name input `[insert A, vector A]`. -/
theorem assembly_duplicate_name_semantics_witness :
    ∃ r, compute_assembly_protocol
        [⟨"A", 1000, 10, false⟩, ⟨"A", 1000, 10, true⟩] 20 2 (1/20) 2 = .ok r ∧
      (r.fragment_volumes.map Prod.fst).Nodup ∧
      (∀ k, lookupDict r.fragment_volumes k =
        ((((⟨"A", 1000, 10, true⟩ : Fragment) ::
            ([⟨"A", 1000, 10, false⟩, ⟨"A", 1000, 10, true⟩] : List Fragment).filter
              (fun f => !f.is_vector)).reverse.find?
            (fun f => f.name == k)).map (fragVol (1/20) 2))) ∧
      r.water_volume =
        20 - 20 / 2 - (r.fragment_volumes.map Prod.snd).sum := by
  refine assembly_duplicate_name_semantics
    [⟨"A", 1000, 10, false⟩, ⟨"A", 1000, 10, true⟩] ⟨"A", 1000, 10, true⟩
    20 2 (1/20) 2 (by simp [List.filter]) ?_ (by norm_num) ?_
  · intro f hf
    rcases List.mem_cons.mp hf with rfl | hf2
    · norm_num
    · rcases List.mem_cons.mp hf2 with rfl | hf3
      · norm_num
      · exact absurd hf3 (List.not_mem_nil f)
  · norm_num [waterPure, volumesMap, volStep, insertVolume, insertMassNg,
      vectorVolume, vectorMassNg, dictInsert, List.filter]

/-- C6: for every nonzero slope, `compute_sample_concentration` returns
`max ((absorbance - intercept) / slope) 0 * dilution_factor`; in particular,
with a positive slope and absorbance below the intercept the result is 0. -/
theorem sample_concentration_clamp (a s i d : ℚ) (hs : s ≠ 0) :
    compute_sample_concentration a s i d = .ok (max ((a - i) / s) 0 * d) ∧
    (0 < s → a < i → compute_sample_concentration a s i d = .ok 0) := by
  have hpy : pydiv (a - i) s = .ok ((a - i) / s) := by
    rw [pydiv, if_neg hs]
  have hcore : compute_sample_concentration a s i d =
      .ok ((if (a - i) / s < 0 then 0 else (a - i) / s) * d) := by
    unfold compute_sample_concentration
    simp only [hpy]
  constructor
  · rw [hcore]
    by_cases hlt : (a - i) / s < 0
    · rw [if_pos hlt, max_eq_right (le_of_lt hlt)]
    · rw [if_neg hlt, max_eq_left (not_lt.mp hlt)]
  · intro hspos hai
    have hneg : (a - i) / s < 0 := div_neg_of_neg_of_pos (by linarith) hspos
    rw [hcore, if_pos hneg]
    norm_num

/-- Witness for C6 at `slope = 0.5, intercept = 0.1, absorbance = 0.05,
dilution = 3`: the clamp fires and the result is 0. -/
theorem sample_concentration_clamp_witness :
    compute_sample_concentration (1/20) (1/2) (1/10) 3 =
      .ok (max (((1:ℚ)/20 - 1/10) / (1/2)) 0 * 3) ∧
    compute_sample_concentration (1/20) (1/2) (1/10) 3 = .ok 0 :=
  ⟨(sample_concentration_clamp (1/20) (1/2) (1/10) 3 (by norm_num)).1,
   (sample_concentration_clamp (1/20) (1/2) (1/10) 3 (by norm_num)).2
     (by norm_num) (by norm_num)⟩

/-- Row-loop characterisation: with as many lines as concentrations, the loop
fails exactly when some line is malformed, and on success returns the rows
zipped positionally with the concentrations. -/
theorem parseRows_spec (lines : List String) :
    ∀ (concs : List ℚ) (i : Nat), lines.length = concs.length →
      ((∃ e, parseRows i lines concs = .error e) ↔ ∃ l ∈ lines, rowOk l = false) ∧
      (∀ pts, parseRows i lines concs = .ok pts →
        pts = (lines.zip concs).map (fun p => rowPoint p.2 p.1)) := by
  induction lines with
  | nil =>
    intro concs i h
    have hc : concs = [] := by
      cases concs with
      | nil => rfl
      | cons c cs => simp at h
    subst hc
    constructor
    · constructor
      · rintro ⟨e, he⟩
        simp [parseRows] at he
      · rintro ⟨l, hl, -⟩
        exact absurd hl (List.not_mem_nil l)
    · intro pts hpts
      simp [parseRows] at hpts
      simp [hpts]
  | cons line ls ih =>
    intro concs i h
    cases concs with
    | nil => simp at h
    | cons conc cs =>
      have hlen : ls.length = cs.length := by simpa using h
      obtain ⟨iherr, ihok⟩ := ih cs (i + 1) hlen
      rcases hsp : pySplit line with - | ⟨p0, ptail⟩
      · have hrow : rowOk line = false := by rw [rowOk, hsp]
        have hpr : parseRows i (line :: ls) (conc :: cs) = .error (.valueError
            ("Line " ++ toString (i + 1) ++
              " does not have 2 columns of absorbance.")) := by
          simp only [parseRows, hsp]
        refine ⟨⟨fun _ => ⟨line, List.mem_cons_self _ _, hrow⟩, fun _ => ⟨_, hpr⟩⟩, ?_⟩
        intro pts hpts
        rw [hpr] at hpts
        simp at hpts
      · rcases ptail with - | ⟨p1, prest⟩
        · have hrow : rowOk line = false := by rw [rowOk, hsp]
          have hpr : parseRows i (line :: ls) (conc :: cs) = .error (.valueError
              ("Line " ++ toString (i + 1) ++
                " does not have 2 columns of absorbance.")) := by
            simp only [parseRows, hsp]
          refine ⟨⟨fun _ => ⟨line, List.mem_cons_self _ _, hrow⟩, fun _ => ⟨_, hpr⟩⟩, ?_⟩
          intro pts hpts
          rw [hpr] at hpts
          simp at hpts
        · cases hf0 : pyFloat p0 with
          | none =>
            have hrow : rowOk line = false := by
              simp [rowOk, hsp, hf0]
            have hpr : parseRows i (line :: ls) (conc :: cs) =
                .error (.valueError ("could not convert string to float: " ++ p0)) := by
              simp only [parseRows, hsp, hf0]
            refine ⟨⟨fun _ => ⟨line, List.mem_cons_self _ _, hrow⟩, fun _ => ⟨_, hpr⟩⟩, ?_⟩
            intro pts hpts
            rw [hpr] at hpts
            simp at hpts
          | some r1 =>
            cases hf1 : pyFloat p1 with
            | none =>
              have hrow : rowOk line = false := by
                simp [rowOk, hsp, hf0, hf1]
              have hpr : parseRows i (line :: ls) (conc :: cs) =
                  .error (.valueError ("could not convert string to float: " ++ p1)) := by
                simp only [parseRows, hsp, hf0, hf1]
              refine ⟨⟨fun _ => ⟨line, List.mem_cons_self _ _, hrow⟩,
                fun _ => ⟨_, hpr⟩⟩, ?_⟩
              intro pts hpts
              rw [hpr] at hpts
              simp at hpts
            | some r2 =>
              have hrow : rowOk line = true := by
                simp [rowOk, hsp, hf0, hf1]
              cases hrec : parseRows (i + 1) ls cs with
              | error e =>
                have hpr : parseRows i (line :: ls) (conc :: cs) = .error e := by
                  simp only [parseRows, hsp, hf0, hf1, hrec]
                refine ⟨⟨?_, fun _ => ⟨e, hpr⟩⟩, ?_⟩
                · intro _
                  obtain ⟨l, hl, hlrow⟩ := iherr.mp ⟨e, hrec⟩
                  exact ⟨l, List.mem_cons_of_mem _ hl, hlrow⟩
                · intro pts hpts
                  rw [hpr] at hpts
                  simp at hpts
              | ok pts0 =>
                have hpr : parseRows i (line :: ls) (conc :: cs) =
                    .ok (⟨conc, r1, r2, (r1 + r2) / 2⟩ :: pts0) := by
                  simp only [parseRows, hsp, hf0, hf1, hrec]
                constructor
                · constructor
                  · rintro ⟨e, he⟩
                    rw [hpr] at he
                    simp at he
                  · rintro ⟨l, hl, hlrow⟩
                    rcases List.mem_cons.mp hl with rfl | hml
                    · rw [hrow] at hlrow
                      cases hlrow
                    · obtain ⟨e, he⟩ := iherr.mpr ⟨l, hml, hlrow⟩
                      rw [hrec] at he
                      simp at he
                · intro pts hpts
                  rw [hpr, Except.ok.injEq] at hpts
                  subst hpts
                  rw [List.zip_cons_cons, List.map_cons]
                  congr 1
                  · rw [rowPoint, hsp]
                    simp only [hf0, hf1, Option.getD_some]
                  · exact ihok pts0 hrec

/-- C5: `parse_standard_duplicates` raises exactly when fewer than 9 lines are
supplied or one of the first 9 lines is malformed (fewer than two tokens, or a
non-numeric token among the first two); on success it uses only the first 9
lines, zipped positionally with the fixed concentration ladder, with
`abs_mean` the arithmetic mean of the two replicates. -/
theorem parse_standard_characterisation (raw : String) :
    ((∃ e, parse_standard_duplicates raw = .error e) ↔
      ((pyLines raw).length < 9 ∨ ∃ l ∈ (pyLines raw).take 9, rowOk l = false)) ∧
    (∀ curve, parse_standard_duplicates raw = .ok curve →
      curve.length = 9 ∧
      curve = (((pyLines raw).take 9).zip STANDARD_CONCENTRATIONS).map
        (fun p => rowPoint p.2 p.1)) := by
  by_cases hlen : (pyLines raw).length < 9
  · have hp : parse_standard_duplicates raw = .error (.valueError
        "You must provide at least 9 lines of data for the 9 standard concentrations (A1-A9).") := by
      rw [parse_standard_duplicates, if_pos hlen]
    constructor
    · exact ⟨fun _ => Or.inl hlen, fun _ => ⟨_, hp⟩⟩
    · intro curve hc
      rw [hp] at hc
      simp at hc
  · have h9 : ((pyLines raw).take 9).length = 9 := by
      rw [List.length_take]
      exact Nat.min_eq_left (le_of_not_lt hlen)
    have hl9 : ((pyLines raw).take 9).length = STANDARD_CONCENTRATIONS.length := by
      rw [h9]
      rfl
    obtain ⟨herr, hok⟩ :=
      parseRows_spec ((pyLines raw).take 9) STANDARD_CONCENTRATIONS 0 hl9
    have hp : parse_standard_duplicates raw =
        parseRows 0 ((pyLines raw).take 9) STANDARD_CONCENTRATIONS := by
      rw [parse_standard_duplicates, if_neg hlen]
    rw [hp]
    constructor
    · constructor
      · intro he
        exact Or.inr (herr.mp he)
      · rintro (hc | hc)
        · exact absurd hc hlen
        · exact herr.mpr hc
    · intro curve hc
      have hcurve := hok curve hc
      refine ⟨?_, hcurve⟩
      rw [hcurve, List.length_map, List.length_zip, h9]
      rfl

/-- Witness for C5 on a 9-line input of `1 2` rows. -/
theorem parse_standard_characterisation_witness :
    ∃ curve, parse_standard_duplicates
        "1 2\n1 2\n1 2\n1 2\n1 2\n1 2\n1 2\n1 2\n1 2" = .ok curve ∧
      curve.length = 9 ∧
      curve = (((pyLines "1 2\n1 2\n1 2\n1 2\n1 2\n1 2\n1 2\n1 2\n1 2").take 9).zip
          STANDARD_CONCENTRATIONS).map (fun p => rowPoint p.2 p.1) := by
  have hlines : pyLines "1 2\n1 2\n1 2\n1 2\n1 2\n1 2\n1 2\n1 2\n1 2" =
      ["1 2", "1 2", "1 2", "1 2", "1 2", "1 2", "1 2", "1 2", "1 2"] := by
    decide
  have hsp : pySplit "1 2" = ["1", "2"] := by decide
  have hf1 : pyFloat "1" = some 1 := by
    rw [pyFloat, show pyFloatRep "1" = some ⟨false, 1, 0, 0, 0⟩ from by decide]
    norm_num [repVal]
  have hf2 : pyFloat "2" = some 2 := by
    rw [pyFloat, show pyFloatRep "2" = some ⟨false, 2, 0, 0, 0⟩ from by decide]
    norm_num [repVal]
  have hcur : parse_standard_duplicates
      "1 2\n1 2\n1 2\n1 2\n1 2\n1 2\n1 2\n1 2\n1 2" =
      .ok (STANDARD_CONCENTRATIONS.map (fun c => ⟨c, 1, 2, (1 + 2) / 2⟩)) := by
    rw [parse_standard_duplicates, hlines]
    norm_num [parseRows, hsp, hf1, hf2, STANDARD_CONCENTRATIONS]
  refine ⟨_, hcur, (parse_standard_characterisation _).2 _ hcur⟩

theorem list_sum_affine (xs : List ℚ) (a b : ℚ) :
    (xs.map (fun x => a * x + b)).sum = a * xs.sum + (xs.length : ℚ) * b := by
  induction xs with
  | nil => simp
  | cons x l ih =>
    simp only [List.map_cons, List.sum_cons, List.length_cons, ih]
    push_cast
    ring

theorem list_sum_mul_affine (xs : List ℚ) (a b : ℚ) :
    (xs.map (fun x => x * (a * x + b))).sum =
      a * (xs.map (fun x => x ^ 2)).sum + b * xs.sum := by
  induction xs with
  | nil => simp
  | cons x l ih =>
    simp only [List.map_cons, List.sum_cons, ih]
    ring

theorem list_sum_sub_sq (xs : List ℚ) (a b : ℚ) :
    (xs.map (fun x => (a * x - b) ^ 2)).sum =
      a ^ 2 * (xs.map (fun x => x ^ 2)).sum - 2 * a * b * xs.sum +
        (xs.length : ℚ) * b ^ 2 := by
  induction xs with
  | nil => simp
  | cons x l ih =>
    simp only [List.map_cons, List.sum_cons, List.length_cons, ih]
    push_cast
    ring

theorem list_sum_eq_zero_of_nonneg (xs : List ℚ) :
    (∀ x ∈ xs, 0 ≤ x) → xs.sum = 0 → ∀ x ∈ xs, x = 0 := by
  induction xs with
  | nil =>
    intro _ _ x hx
    exact absurd hx (List.not_mem_nil x)
  | cons y l ih =>
    intro h h0 x hx
    have hl : ∀ z ∈ l, 0 ≤ z := fun z hz => h z (List.mem_cons_of_mem y hz)
    have hy : 0 ≤ y := h y (List.mem_cons_self y l)
    have hsuml : 0 ≤ l.sum := List.sum_nonneg hl
    rw [List.sum_cons] at h0
    rcases List.mem_cons.mp hx with rfl | hxl
    · linarith
    · exact ih hl (by linarith) x hxl

/-- Two distinct values among the x's make `n * Σx² − (Σx)²` strictly positive
(the degree-1 least-squares denominator). -/
theorem denom_pos (xs : List ℚ) (a : ℚ) (ha : a ∈ xs) (b : ℚ) (hb : b ∈ xs)
    (hab : a ≠ b) :
    0 < (xs.length : ℚ) * (xs.map (fun x => x ^ 2)).sum - xs.sum ^ 2 := by
  have hkey : (xs.map (fun x => ((xs.length : ℚ) * x - xs.sum) ^ 2)).sum =
      (xs.length : ℚ) *
        ((xs.length : ℚ) * (xs.map (fun x => x ^ 2)).sum - xs.sum ^ 2) := by
    rw [list_sum_sub_sq xs ((xs.length : ℚ)) xs.sum]
    ring
  have hn : 0 < (xs.length : ℚ) := by
    have hpos : 0 < xs.length := List.length_pos.mpr (List.ne_nil_of_mem ha)
    exact_mod_cast hpos
  have hsq : 0 ≤ (xs.map (fun x => ((xs.length : ℚ) * x - xs.sum) ^ 2)).sum :=
    List.sum_nonneg (fun y hy => by
      obtain ⟨x, -, rfl⟩ := List.mem_map.mp hy
      positivity)
  have hD0 : 0 ≤ (xs.length : ℚ) * (xs.map (fun x => x ^ 2)).sum - xs.sum ^ 2 := by
    nlinarith [hkey, hsq, hn]
  rcases eq_or_lt_of_le hD0 with heq | hlt
  · exfalso
    have hzero : (xs.map (fun x => ((xs.length : ℚ) * x - xs.sum) ^ 2)).sum = 0 := by
      rw [hkey, ← heq]
      ring
    have hall := list_sum_eq_zero_of_nonneg _
      (fun y hy => by
        obtain ⟨x, -, rfl⟩ := List.mem_map.mp hy
        positivity)
      hzero
    have hA : ((xs.length : ℚ) * a - xs.sum) ^ 2 = 0 :=
      hall _ (List.mem_map_of_mem _ ha)
    have hB : ((xs.length : ℚ) * b - xs.sum) ^ 2 = 0 :=
      hall _ (List.mem_map_of_mem _ hb)
    have hA' : (xs.length : ℚ) * a = xs.sum := by
      have := sq_eq_zero_iff.mp hA
      linarith
    have hB' : (xs.length : ℚ) * b = xs.sum := by
      have := sq_eq_zero_iff.mp hB
      linarith
    exact hab (mul_left_cancel₀ (ne_of_gt hn) (hA'.trans hB'.symm))
  · exact hlt

/-- Expansion of the residual sum of squares into the moment sums. -/
theorem rss_expand (pts : List StandardPoint) (s i : ℚ) :
    rss pts s i =
      (pts.map (fun p => p.abs_mean ^ 2)).sum
        - 2 * s * (pts.map (fun p => p.conc_mg_mL * p.abs_mean)).sum
        - 2 * i * (pts.map (fun p => p.abs_mean)).sum
        + s ^ 2 * (pts.map (fun p => p.conc_mg_mL ^ 2)).sum
        + 2 * s * i * (pts.map (fun p => p.conc_mg_mL)).sum
        + (pts.length : ℚ) * i ^ 2 := by
  induction pts with
  | nil => simp [rss]
  | cons p rest ih =>
    rw [rss, List.map_cons, List.sum_cons]
    rw [rss] at ih
    rw [ih]
    simp only [List.map_cons, List.sum_cons, List.length_cons]
    push_cast
    ring

theorem two_le_length_of_ne_mem {α : Type} {l : List α} {x y : α}
    (hx : x ∈ l) (hy : y ∈ l) (hne : x ≠ y) : 2 ≤ l.length := by
  cases l with
  | nil => exact absurd hx (List.not_mem_nil x)
  | cons a t =>
    cases t with
    | nil =>
      rw [List.mem_singleton] at hx hy
      exact absurd (hx.trans hy.symm) hne
    | cons b u =>
      simp only [List.length_cons]
      omega

/-- C7: `compute_standard_regression` raises `InsufficientData` exactly when
fewer than 2 points are supplied; with two distinct concentrations it computes
the ordinary-least-squares line: it minimises the residual sum of squares, and
on exactly linear data `abs_mean = a * conc + b` it returns `(a, b)`. -/
theorem regression_characterisation (pts : List StandardPoint) (a b : ℚ) :
    ((∃ e, compute_standard_regression pts = .error e) ↔ pts.length < 2) ∧
    (∀ p ∈ pts, ∀ q ∈ pts, p.conc_mg_mL ≠ q.conc_mg_mL →
      ((∀ r ∈ pts, r.abs_mean = a * r.conc_mg_mL + b) →
        compute_standard_regression pts = .ok (a, b)) ∧
      (∀ s i, rss pts (olsSlope pts) (olsIntercept pts) ≤ rss pts s i)) := by
  constructor
  · by_cases h2 : pts.length < 2
    · rw [compute_standard_regression, if_pos h2]
      exact ⟨fun _ => h2, fun _ => ⟨_, rfl⟩⟩
    · rw [compute_standard_regression, if_neg h2]
      constructor
      · rintro ⟨e, he⟩
        simp at he
      · intro hc
        exact absurd hc h2
  · intro p hp q hq hne
    have hpq : p ≠ q := fun h => hne (by rw [h])
    have h2le : 2 ≤ pts.length := two_le_length_of_ne_mem hp hq hpq
    have hn : (0 : ℚ) < (pts.length : ℚ) := by
      have hpos : 0 < pts.length := lt_of_lt_of_le (by norm_num) h2le
      exact_mod_cast hpos
    have hxmem : p.conc_mg_mL ∈ pts.map (fun r => r.conc_mg_mL) :=
      List.mem_map_of_mem _ hp
    have hymem : q.conc_mg_mL ∈ pts.map (fun r => r.conc_mg_mL) :=
      List.mem_map_of_mem _ hq
    have hD0 := denom_pos (pts.map (fun r => r.conc_mg_mL)) _ hxmem _ hymem hne
    have hmm : (pts.map (fun r => r.conc_mg_mL)).map (fun x => x ^ 2) =
        pts.map (fun r => r.conc_mg_mL ^ 2) := by
      rw [List.map_map]
      rfl
    have hD : 0 < (pts.length : ℚ) * (pts.map (fun r => r.conc_mg_mL ^ 2)).sum -
        ((pts.map (fun r => r.conc_mg_mL)).sum) ^ 2 := by
      rw [hmm, List.length_map] at hD0
      exact hD0
    constructor
    · intro hlin
      have hmapy : pts.map (fun r => r.abs_mean) =
          (pts.map (fun r => r.conc_mg_mL)).map (fun x => a * x + b) := by
        rw [List.map_map]
        exact List.map_congr_left hlin
      have hSy : (pts.map (fun r => r.abs_mean)).sum =
          a * (pts.map (fun r => r.conc_mg_mL)).sum + (pts.length : ℚ) * b := by
        rw [hmapy, list_sum_affine, List.length_map]
      have hmapxy : pts.map (fun r => r.conc_mg_mL * r.abs_mean) =
          (pts.map (fun r => r.conc_mg_mL)).map (fun x => x * (a * x + b)) := by
        rw [List.map_map]
        exact List.map_congr_left (fun r hr => by
          rw [hlin r hr]
          rfl)
      have hSxy : (pts.map (fun r => r.conc_mg_mL * r.abs_mean)).sum =
          a * (pts.map (fun r => r.conc_mg_mL ^ 2)).sum +
            b * (pts.map (fun r => r.conc_mg_mL)).sum := by
        rw [hmapxy, list_sum_mul_affine, hmm]
      have hslope : olsSlope pts = a := by
        unfold olsSlope
        rw [hSxy, hSy, div_eq_iff (ne_of_gt hD)]
        ring
      have hicept : olsIntercept pts = b := by
        unfold olsIntercept
        rw [hslope, hSy, div_eq_iff (ne_of_gt hn)]
        ring
      rw [compute_standard_regression, if_neg (not_lt.mpr h2le), hslope, hicept]
    · intro s i
      have hDne : (pts.length : ℚ) * (pts.map (fun r => r.conc_mg_mL ^ 2)).sum -
          ((pts.map (fun r => r.conc_mg_mL)).sum) ^ 2 ≠ 0 := ne_of_gt hD
      have hnne : (pts.length : ℚ) ≠ 0 := ne_of_gt hn
      have hdiff : rss pts s i - rss pts (olsSlope pts) (olsIntercept pts) =
          (((pts.length : ℚ) * i + s * (pts.map (fun r => r.conc_mg_mL)).sum -
              (pts.map (fun r => r.abs_mean)).sum) ^ 2 +
            ((pts.length : ℚ) * (pts.map (fun r => r.conc_mg_mL ^ 2)).sum -
              ((pts.map (fun r => r.conc_mg_mL)).sum) ^ 2) *
              (s - olsSlope pts) ^ 2) / (pts.length : ℚ) := by
        rw [rss_expand, rss_expand]
        unfold olsIntercept olsSlope
        field_simp
        ring
      have hnn : 0 ≤ rss pts s i - rss pts (olsSlope pts) (olsIntercept pts) := by
        rw [hdiff]
        apply div_nonneg _ (le_of_lt hn)
        exact add_nonneg (sq_nonneg _) (mul_nonneg (le_of_lt hD) (sq_nonneg _))
      linarith

/-- Witness for C7 on two exactly linear points of `abs = 0.5 * conc + 0.05`:
the regression returns `(0.5, 0.05)` and minimises the residual sum of squares
(compared here against the zero line). -/
theorem regression_characterisation_witness :
    compute_standard_regression
      [⟨2, 21/20, 21/20, 21/20⟩, ⟨1, 11/20, 11/20, 11/20⟩] = .ok (1/2, 1/20) ∧
    rss [⟨2, 21/20, 21/20, 21/20⟩, ⟨1, 11/20, 11/20, 11/20⟩]
        (olsSlope [⟨2, 21/20, 21/20, 21/20⟩, ⟨1, 11/20, 11/20, 11/20⟩])
        (olsIntercept [⟨2, 21/20, 21/20, 21/20⟩, ⟨1, 11/20, 11/20, 11/20⟩]) ≤
      rss [⟨2, 21/20, 21/20, 21/20⟩, ⟨1, 11/20, 11/20, 11/20⟩] 0 0 := by
  have h := (regression_characterisation
      [⟨2, 21/20, 21/20, 21/20⟩, ⟨1, 11/20, 11/20, 11/20⟩] (1/2) (1/20)).2
      ⟨2, 21/20, 21/20, 21/20⟩ (List.mem_cons_self _ _)
      ⟨1, 11/20, 11/20, 11/20⟩
      (List.mem_cons_of_mem _ (List.mem_cons_self _ _))
      (by norm_num)
  refine ⟨h.1 ?_, h.2 0 0⟩
  intro r hr
  rcases List.mem_cons.mp hr with rfl | hr2
  · norm_num
  · rcases List.mem_cons.mp hr2 with rfl | hr3
    · norm_num
    · exact absurd hr3 (List.not_mem_nil r)

end LabZen
